import Mathlib

/-!
Verification of the ragged all-to-all collective engine
(`xla/backends/gpu/runtime/nccl_ragged_all_to_all_thunk.cc`) against its
natural-language specification.

Device buffers are modelled as total functions from element offset to element
value.  Every transfer issued by the code (an NCCL receive landing in a local
buffer, or a direct device-to-device memcpy into a peer's buffer) is modelled
as a `WriteOp`: a destination element offset, a length in elements, and the
data written.  Host-side metadata arrays are modelled as functions from flat
index to value.
-/

namespace RaggedAllToAll

/-- A single buffer write: `len` elements are written starting at element
offset `dst`; the element stored at `dst + k` is `data k`. -/
structure WriteOp (α : Type) where
  dst : Nat
  len : Nat
  data : Nat → α

/-- Apply one write on top of a buffer. -/
def applyWrite {α : Type} (b : Nat → α) (w : WriteOp α) : Nat → α :=
  fun x => if w.dst ≤ x ∧ x < w.dst + w.len then w.data (x - w.dst) else b x

/-- Apply a list of writes in order (later writes shadow earlier ones). -/
def applyWrites {α : Type} (l : List (WriteOp α)) (b : Nat → α) : Nat → α :=
  l.foldl applyWrite b

/-- Two writes touch disjoint element ranges. -/
def WriteOp.DisjointW {α : Type} (w1 w2 : WriteOp α) : Prop :=
  w1.dst + w1.len ≤ w2.dst ∨ w2.dst + w2.len ≤ w1.dst

/-- A write covers an element offset. -/
def WriteOp.covers {α : Type} (w : WriteOp α) (x : Nat) : Prop :=
  w.dst ≤ x ∧ x < w.dst + w.len

instance {α : Type} (w : WriteOp α) (x : Nat) : Decidable (w.covers x) := by
  unfold WriteOp.covers; infer_instance

/-! ## Device-group locality (`NcclRaggedAllToAllStartThunk::is_local`)

Direct embedding of the source: for every replica group, take the node id of
the group's first member (`replica_ids().at(0) / device_count_`) and check
that every member rank maps to that node id by integer division. -/

def is_local (replica_groups : List (List Nat)) (device_count : Nat) : Bool :=
  replica_groups.all fun g =>
    let node_id := g.headI / device_count
    g.all fun r => r / device_count == node_id

/-! ## Rendezvous value aggregation

`RendezvousValue` carries the per-rank data exchanged between host threads;
event handles and buffer handles are modelled as opaque numeric tokens.  The
combine function `rendezvous_fn` copies the submitted values and sorts them by
rank (the source sorts with `operator<`, which compares only `rank`; the
sorted output is therefore nondecreasing in `rank`). -/

structure RendezvousValue where
  rank : Nat
  output_buffer : Nat
  start_event : Nat
  end_event : Nat
deriving DecidableEq

def rendezvousLe (a b : RendezvousValue) : Bool := a.rank ≤ b.rank

def rendezvous_fn (values : List RendezvousValue) : List RendezvousValue :=
  values.mergeSort rendezvousLe

/-! ## Control-flow step traces (`RunNcclCollective` and the two transports)

Each list records, in program order, the phases the source executes:
`RunNcclCollective` resolves buffers, then branches on `should_use_memcpy()`
(transport selection); `RunRaggedAllToAll` runs `RunAllToAllOnIndexBuffer`
(the offset-resolution pass), then `LoadRaggedTensorMetadata`, then the
send/recv exchange; `RunMemCpyRaggedAllToAll` runs `LoadRaggedTensorMetadata`
and then the rendezvous/copy exchange, with no offset-resolution pass. -/

inductive Step where
  | legalityCheck
  | selectTransport
  | offsetResolution
  | loadMetadata
  | p2pExchange
  | memcpyExchange
deriving DecidableEq

def runRaggedAllToAllSteps : List Step :=
  [.offsetResolution, .loadMetadata, .p2pExchange]

def runMemCpySteps : List Step :=
  [.loadMetadata, .memcpyExchange]

def runNcclCollectiveSteps (use_memcpy : Bool) : List Step :=
  .selectTransport :: (if use_memcpy then runMemCpySteps else runRaggedAllToAllSteps)

def executionSteps (use_memcpy : Bool) : List Step :=
  .legalityCheck :: runNcclCollectiveSteps use_memcpy

/-! ## Static legality check (`NcclRaggedAllToAllStartThunk::CheckImplementable`)

The operand shapes are reduced to the facts the check consumes: the element
type, whether `IsValidOperand` accepts the shape (that helper lives in
`nccl_collective_thunk.cc`, outside the provided sources, so it is abstracted
to a verdict carried by the shape model), and whether the ragged dimension 0
is effectively the most-major dimension of the result layout
(`ShapeUtil::IsEffectivelyMostMajorDimension`, also outside the provided
sources, likewise abstracted to a verdict). -/

inductive PrimT where
  | pred
  | s8
  | s32
  | s64
  | f32
deriving DecidableEq, Inhabited

inductive MStatus where
  | ok
  | unimplementedError (msg : String)
  | invalidArgumentError (msg : String)
deriving DecidableEq

structure MShape where
  element_type : PrimT
  valid_operand : Bool
deriving DecidableEq, Inhabited

structure MInstr where
  operands : List MShape
  result_most_major_ragged : Bool
  result_layout_str : String
deriving DecidableEq

/-- Modelled from the spec: `IsValidOperand` (defined in
`nccl_collective_thunk.cc`, not among the provided sources) verifies that an
operand has a supported memory layout, failing with a descriptive
unsupported-operation error otherwise.  The verdict is the `valid_operand`
field of the shape model. -/
def IsValidOperand (s : MShape) : MStatus :=
  if s.valid_operand then .ok else .unimplementedError "unsupported operand layout"

/-- First error of a sequence of statuses, mirroring a loop of
`TF_RETURN_IF_ERROR`. -/
def firstStatusError : List MStatus → MStatus
  | [] => .ok
  | .ok :: rest => firstStatusError rest
  | e :: _ => e

/-- Modelled from the spec: `AddOpDescription` (defined in
`nccl_collective_thunk.h`, not among the provided sources) decorates a failed
status with a description of the operation and leaves a successful status
unchanged. -/
def AddOpDescription (s : MStatus) (desc : String) : MStatus :=
  match s with
  | .ok => .ok
  | .unimplementedError m => .unimplementedError (m ++ desc)
  | .invalidArgumentError m => .invalidArgumentError (m ++ desc)

def s64OffsetsMsg : String :=
  "RaggedAllToAllDecomposer only supports S64 offsets. Was `ragged-all-to-all-canonicalizer` pass executed?"

def mostMajorMsg (layout : String) : String :=
  "ragged-all-to-all must have the ragged dimension (0) in the most major position in the layout " ++ layout ++ "."

def CheckImplementable (instr : MInstr) (desc : String) : MStatus :=
  let status :=
    match firstStatusError (instr.operands.map IsValidOperand) with
    | .ok =>
        if !instr.result_most_major_ragged then
          .unimplementedError (mostMajorMsg instr.result_layout_str)
        else if (instr.operands.getD 2 default).element_type ≠ PrimT.s64 then
          .invalidArgumentError s64OffsetsMsg
        else .ok
    | e => e
  AddOpDescription status desc

/-! ## Per-device resource caches (`NcclRaggedAllToAllStartThunk::Initialize`)

Executors (devices), host buffers, device buffers and events are opaque
numeric handles; each cache is an association list keyed by executor, into
which a fresh entry is pushed only when `lookup` misses (mirroring the
`contains`/`count` guards in the source).  The allocator is abstract; the
list of `AllocEvent`s returned alongside the new state records exactly which
allocations the call performed. -/

inductive AllocEvent where
  | hostBuffer (executor : Nat) (i : Nat)
  | deviceBuffer (executor : Nat)
  | startEvent (executor : Nat)
  | endEvent (executor : Nat)
deriving DecidableEq

structure ThunkState where
  device_count : Int
  host_buffer_allocs : List (Nat × List Nat)
  device_buffer_allocs : List (Nat × Nat)
  start_events : List (Nat × Nat)
  end_events : List (Nat × Nat)
deriving DecidableEq

structure InitializeParams where
  executor : Nat
  local_device_count : Int
deriving DecidableEq

structure Allocator where
  hostAlloc : Nat → Nat → Nat
  deviceAlloc : Nat → Nat
  eventAlloc : Nat → Bool → Nat

def initHostBuffers (A : Allocator) (p : InitializeParams) (s : ThunkState) :
    ThunkState × List AllocEvent :=
  if (s.host_buffer_allocs.lookup p.executor).isSome then (s, [])
  else
    ({ s with host_buffer_allocs :=
        (p.executor, (List.range 4).map (A.hostAlloc p.executor)) :: s.host_buffer_allocs },
      (List.range 4).map (AllocEvent.hostBuffer p.executor))

def initDeviceBuffer (A : Allocator) (p : InitializeParams) (s : ThunkState) :
    ThunkState × List AllocEvent :=
  if (s.device_buffer_allocs.lookup p.executor).isSome then (s, [])
  else
    ({ s with device_buffer_allocs :=
        (p.executor, A.deviceAlloc p.executor) :: s.device_buffer_allocs },
      [AllocEvent.deviceBuffer p.executor])

def initStartEvent (A : Allocator) (p : InitializeParams) (s : ThunkState) :
    ThunkState × List AllocEvent :=
  if (s.start_events.lookup p.executor).isSome then (s, [])
  else
    ({ s with start_events :=
        (p.executor, A.eventAlloc p.executor false) :: s.start_events },
      [AllocEvent.startEvent p.executor])

def initEndEvent (A : Allocator) (p : InitializeParams) (s : ThunkState) :
    ThunkState × List AllocEvent :=
  if (s.end_events.lookup p.executor).isSome then (s, [])
  else
    ({ s with end_events :=
        (p.executor, A.eventAlloc p.executor true) :: s.end_events },
      [AllocEvent.endEvent p.executor])

def initEvents (A : Allocator) (p : InitializeParams) (s : ThunkState) :
    ThunkState × List AllocEvent :=
  ((initEndEvent A p (initStartEvent A p s).1).1,
    (initStartEvent A p s).2 ++ (initEndEvent A p (initStartEvent A p s).1).2)

def initStage3 (A : Allocator) (use_memcpy : Bool) (p : InitializeParams)
    (s : ThunkState) : ThunkState × List AllocEvent :=
  if use_memcpy then initEvents A p s else (s, [])

def Initialize (A : Allocator) (use_memcpy : Bool) (s : ThunkState)
    (p : InitializeParams) : ThunkState × List AllocEvent :=
  ((initStage3 A use_memcpy p
      (initDeviceBuffer A p
        (initHostBuffers A p { s with device_count := p.local_device_count }).1).1).1,
    (initHostBuffers A p { s with device_count := p.local_device_count }).2
      ++ (initDeviceBuffer A p
            (initHostBuffers A p { s with device_count := p.local_device_count }).1).2
      ++ (initStage3 A use_memcpy p
            (initDeviceBuffer A p
              (initHostBuffers A p
                { s with device_count := p.local_device_count }).1).1).2)

/-! ## Memory-copy transport synchronization discipline

`memcpySyncTrace` is the per-thread program-order trace of the
synchronization-relevant operations of `RunMemCpyRaggedAllToAll`, in source
order: record the local start event; enter the start rendezvous (a barrier
over the clique); wait on the stream for every peer's start event; perform
the device-to-device copies; record the local end event; enter the finish
rendezvous (a payload-free barrier); wait on the stream for every peer's end
event; return `OkStatus`.

An interleaved execution of `n` threads each running this trace is modelled
by a time assignment `sched thread position`.  A schedule is valid when it
respects per-thread program order and the two barrier constraints: every
thread arrives at a rendezvous before any thread executes its first
post-rendezvous action. -/

inductive SyncAct where
  | recordStart
  | enterStartRendezvous
  | waitPeerStart (peer : Nat)
  | copyPhase
  | recordEnd
  | enterFinishRendezvous
  | waitPeerEnd (peer : Nat)
  | retOk
deriving DecidableEq

def memcpySyncTrace (n : Nat) : List SyncAct :=
  [.recordStart, .enterStartRendezvous]
    ++ (List.range n).map SyncAct.waitPeerStart
    ++ [.copyPhase, .recordEnd, .enterFinishRendezvous]
    ++ (List.range n).map SyncAct.waitPeerEnd
    ++ [.retOk]

/-! ## Collective command traces

`NcclCmd` is the alphabet of operations the transports enqueue against the
collective library: group brackets, sends/receives (element offset, element
count, peer rank), and blocking the host on the stream.  `runCmds` executes a
command list against a fallible enqueue oracle `f`, stopping at the first
error — the semantics of a chain of `TF_RETURN_IF_ERROR`. -/

inductive NcclCmd where
  | groupStart
  | groupEnd
  | send (offE count peer : Nat)
  | recv (offE count peer : Nat)
  | blockHost
deriving DecidableEq

deriving instance DecidableEq for Except

def runCmds {ε : Type} (f : NcclCmd → Except ε Unit) : List NcclCmd → Except ε Unit
  | [] => Except.ok ()
  | c :: cs => f c >>= fun _ => runCmds f cs

/-- Enqueue phase of `RunRaggedAllToAll` (the send/recv loop between
`GroupStart` and `GroupEnd`), mirroring the source: for each update row `i`
and each `peer`, with `idx = peer * num_updates_per_replica + i`, send
`send_sizes[idx] * ragged_row_element_size` elements of the input buffer
starting at `input_offsets[idx] * ragged_row_element_size` to `peer`, and
receive `recv_sizes[idx] * ragged_row_element_size` elements into the output
buffer at `output_offsets[idx] * ragged_row_element_size` from `peer`; any
enqueue failure propagates immediately, and the `GroupEnd` status is
returned. -/
def RunRaggedAllToAllEnqueue {ε : Type} (f : NcclCmd → Except ε Unit)
    (npr n rres : Nat) (inOff sendSz outOff recvSz : Nat → Nat) :
    Except ε Unit :=
  f .groupStart >>= fun _ =>
    ((List.range npr).forM fun i =>
      (List.range n).forM fun peer =>
        f (.send (inOff (peer * npr + i) * rres) (sendSz (peer * npr + i) * rres) peer)
          >>= fun _ =>
        f (.recv (outOff (peer * npr + i) * rres) (recvSz (peer * npr + i) * rres) peer))
      >>= fun _ =>
  f .groupEnd

/-- The flat command sequence the claim ascribes to the point-to-point
transport. -/
def p2pCmdList (npr n rres : Nat) (inOff sendSz outOff recvSz : Nat → Nat) :
    List NcclCmd :=
  [.groupStart]
    ++ ((List.range npr).flatMap fun i => (List.range n).flatMap fun peer =>
        [.send (inOff (peer * npr + i) * rres) (sendSz (peer * npr + i) * rres) peer,
         .recv (outOff (peer * npr + i) * rres) (recvSz (peer * npr + i) * rres) peer])
    ++ [.groupEnd]

/-- Enqueue structure of `RunAllToAllOnIndexBuffer`: one send and one receive
of `num_updates_per_replica` contiguous elements at element offset
`peer * num_updates_per_replica` per peer, inside one group bracket, then
`GroupEnd`, then `BlockHostUntilDone`. -/
def RunAllToAllOnIndexBufferEnqueue {ε : Type} (f : NcclCmd → Except ε Unit)
    (npr n : Nat) : Except ε Unit :=
  f .groupStart >>= fun _ =>
    ((List.range n).forM fun peer =>
      f (.send (peer * npr) npr peer) >>= fun _ =>
      f (.recv (peer * npr) npr peer))
      >>= fun _ =>
  f .groupEnd >>= fun _ =>
  f .blockHost

def a2aIndexCmdList (npr n : Nat) : List NcclCmd :=
  [.groupStart]
    ++ ((List.range n).flatMap fun peer =>
        [.send (peer * npr) npr peer, .recv (peer * npr) npr peer])
    ++ [.groupEnd, .blockHost]

/-! ## Denotational model of the index-buffer all-to-all and the two transports

`RunAllToAllOnIndexBuffer` receives, from each `peer`, `npr` contiguous
elements into the destination buffer at element offset `peer * npr`; the data
received from `peer` is the matching send slice of `peer`'s source buffer at
element offset `p * npr` (where `p` is the local rank).  The destination is a
device scratch buffer whose prior contents are arbitrary. -/

def a2aIndexWrites {α : Type} (src : Nat → Nat → α) (npr n p : Nat) :
    List (WriteOp α) :=
  (List.range n).map fun peer =>
    { dst := peer * npr, len := npr, data := fun k => src peer (p * npr + k) }

def RunAllToAllOnIndexBuffer {α : Type} (src : Nat → Nat → α) (npr n : Nat)
    (dest0 : Nat → α) (p : Nat) : Nat → α :=
  applyWrites (a2aIndexWrites src npr n p) dest0

/-- The per-execution inputs of one ragged all-to-all: `n` ranks,
`npr = num_total_updates / n` updates per replica, `rres` elements per ragged
row, each rank's input and (initial) output buffer, each rank's four
device-resident metadata arrays (indexed by the flat update index), and the
arbitrary initial contents of each rank's output-offsets device scratch
buffer. -/
structure RaggedWorld where
  n : Nat
  npr : Nat
  rres : Nat
  inputBuf : Nat → Nat → Int
  outputBuf : Nat → Nat → Int
  input_offsets : Nat → Nat → Nat
  send_sizes : Nat → Nat → Nat
  output_offsets : Nat → Nat → Nat
  recv_sizes : Nat → Nat → Nat
  scratch : Nat → Nat → Nat

/-- The output-offsets array rank `p` reads back after `RunRaggedAllToAll`
swapped the output-offsets source buffer for the scratch buffer filled by the
index-buffer all-to-all. -/
def resolvedOutputOffsets (w : RaggedWorld) (p : Nat) : Nat → Nat :=
  RunAllToAllOnIndexBuffer w.output_offsets w.npr w.n (w.scratch p) p

/-- The receives `RunRaggedAllToAll` enqueues at rank `p`, in issue order
(update row `i` outer, peer `r` inner): a receive from peer `r` lands at
`output_offsets[r * npr + i] * rres` (the resolved offsets) with length
`recv_sizes[r * npr + i] * rres`.  The data received is the matching send
slice from rank `r`'s iteration `(i, peer := p)`: rank `r`'s input buffer at
`input_offsets[p * npr + i] * rres` (both sides enqueue their `i`-indexed
operations for a fixed pair in ascending order, so the `i`-th send from `r`
to `p` pairs with the `i`-th receive at `p` from `r`). -/
def p2pRecvWrites (w : RaggedWorld) (p : Nat) : List (WriteOp Int) :=
  (List.range w.npr).flatMap fun i => (List.range w.n).map fun r =>
    { dst := resolvedOutputOffsets w p (r * w.npr + i) * w.rres
      len := w.recv_sizes p (r * w.npr + i) * w.rres
      data := fun k => w.inputBuf r (w.input_offsets r (p * w.npr + i) * w.rres + k) }

/-- The buffer contents of rank `p`'s output after the point-to-point
transport. -/
def RunRaggedAllToAllOutput (w : RaggedWorld) (p : Nat) : Nat → Int :=
  applyWrites (p2pRecvWrites w p) (w.outputBuf p)

/-- One device-to-device copy of `RunMemCpyRaggedAllToAll`: rank `r`'s
iteration `(i, peer := p)` copies `send_sizes[p * npr + i] * rres` elements
from its own input buffer at `input_offsets[p * npr + i] * rres` into rank
`p`'s output buffer (obtained from the rank-sorted rendezvous values) at
`output_offsets[p * npr + i] * rres`. -/
def memcpyWrite (w : RaggedWorld) (p r i : Nat) : WriteOp Int :=
  { dst := w.output_offsets r (p * w.npr + i) * w.rres
    len := w.send_sizes r (p * w.npr + i) * w.rres
    data := fun k => w.inputBuf r (w.input_offsets r (p * w.npr + i) * w.rres + k) }

/-- All copies that land in rank `p`'s output buffer during the memory-copy
transport, enumerated source rank `r` outer and update row `i` inner (each
source rank issues its copies toward `p` in ascending `i`; the interleaving
across source ranks is immaterial because the destination ranges are
disjoint, which `applyWrites_perm` makes precise). -/
def memcpyWritesInto (w : RaggedWorld) (p : Nat) : List (WriteOp Int) :=
  (List.range w.n).flatMap fun r => (List.range w.npr).map fun i =>
    memcpyWrite w p r i

/-- The buffer contents of rank `p`'s output after the memory-copy transport.
The transport loads all four metadata arrays (the world carries
`recv_sizes`), but its copies are determined by `input_offsets`, `send_sizes`
and `output_offsets` alone. -/
def RunMemCpyRaggedAllToAllOutput (w : RaggedWorld) (p : Nat) : Nat → Int :=
  applyWrites (memcpyWritesInto w p) (w.outputBuf p)

/-- A concrete two-rank world used by witnesses: one update row per replica,
one element per ragged row; rank `r`'s input buffer holds `10 * r + x` at
offset `x`; rank `r` writes its row for peer `p` at element offset
`2 * r + p` of `p`'s output buffer, so destination ranges are disjoint. -/
def witnessWorld : RaggedWorld where
  n := 2
  npr := 1
  rres := 1
  inputBuf := fun r x => (10 * r + x : Int)
  outputBuf := fun _ _ => 0
  input_offsets := fun _ idx => idx
  send_sizes := fun _ _ => 1
  output_offsets := fun r idx => 2 * r + idx
  recv_sizes := fun _ _ => 1
  scratch := fun _ _ => 0

/-- The witness world with a different `recv_sizes` array and everything else
unchanged. -/
def witnessWorld2 : RaggedWorld :=
  { witnessWorld with recv_sizes := fun _ _ => 5 }

/-! ## Theorems -/

theorem applyWrite_comm {α : Type} {w1 w2 : WriteOp α} (h : w1.DisjointW w2)
    (b : Nat → α) :
    applyWrite (applyWrite b w1) w2 = applyWrite (applyWrite b w2) w1 := by
  funext x
  by_cases h1 : w1.dst ≤ x ∧ x < w1.dst + w1.len <;>
    by_cases h2 : w2.dst ≤ x ∧ x < w2.dst + w2.len <;>
      simp only [applyWrite, h1, h2, if_pos, if_neg, and_true, and_false] <;>
        first
          | (exfalso; rcases h with h | h <;> omega)
          | simp [h1, h2]

theorem applyWrites_perm {α : Type} {l1 l2 : List (WriteOp α)} (hp : l1.Perm l2)
    (hd : ∀ w1 ∈ l1, ∀ w2 ∈ l1, w1 = w2 ∨ w1.DisjointW w2) (b : Nat → α) :
    applyWrites l1 b = applyWrites l2 b := by
  unfold applyWrites
  refine hp.foldl_eq' (fun x hx y hy z => ?_) b
  rcases hd x hx y hy with h | h
  · subst h; rfl
  · exact applyWrite_comm h z

theorem applyWrites_of_not_covers {α : Type} (l : List (WriteOp α))
    (b : Nat → α) (x : Nat) (h : ∀ w ∈ l, ¬ w.covers x) :
    applyWrites l b x = b x := by
  induction l generalizing b with
  | nil => rfl
  | cons w l ih =>
      have hw := h w (by simp)
      have : applyWrite b w x = b x := by
        simp only [applyWrite, WriteOp.covers] at hw ⊢
        simp [hw]
      calc applyWrites (w :: l) b x
          = applyWrites l (applyWrite b w) x := rfl
        _ = applyWrite b w x := ih _ (fun w' hw' => h w' (by simp [hw']))
        _ = b x := this

theorem applyWrites_cover {α : Type} (l : List (WriteOp α)) (b : Nat → α)
    (x : Nat) (w : WriteOp α) (hw : w ∈ l) (hc : w.covers x)
    (huniq : ∀ w' ∈ l, w'.covers x → w' = w) :
    applyWrites l b x = w.data (x - w.dst) := by
  induction l generalizing b with
  | nil => cases hw
  | cons w0 l ih =>
      by_cases hmem : w ∈ l
      · exact ih (applyWrite b w0) hmem
          (fun w' hw' hc' => huniq w' (List.mem_cons_of_mem _ hw') hc')
      · have hw0 : w0 = w := by
          rcases List.mem_cons.mp hw with h | h
          · exact h.symm
          · exact absurd h hmem
        subst hw0
        have hnone : ∀ w' ∈ l, ¬ w'.covers x := by
          intro w' hw' hc'
          exact hmem (huniq w' (by simp [hw']) hc' ▸ hw')
        have : applyWrites (w0 :: l) b x = applyWrite b w0 x :=
          applyWrites_of_not_covers l (applyWrite b w0) x hnone
        rw [this]
        simp only [applyWrite, WriteOp.covers] at hc ⊢
        simp [hc]

/-- C8: `is_local()` is `true` exactly when, in every replica group, every
member rank maps (by integer division against the local device count) to the
same node id as the group's first member; consequently it is `false` whenever
even a single rank of some group maps to a different node id.  The hypotheses
mirror the runtime preconditions: replica groups are nonempty (the source
indexes `replica_ids().at(0)`) and the device count is positive (the source
checks it was initialized). -/
theorem C8_is_local_locality (gs : List (List Nat)) (dc : Nat)
    (hne : ∀ g ∈ gs, g ≠ []) (hdc : 0 < dc) :
    (is_local gs dc = true ↔ ∀ g ∈ gs, ∀ r ∈ g, r / dc = g.headI / dc)
    ∧ (∀ g ∈ gs, ∀ r ∈ g, r / dc ≠ g.headI / dc → is_local gs dc = false) := by
  have hiff : is_local gs dc = true ↔
      ∀ g ∈ gs, ∀ r ∈ g, r / dc = g.headI / dc := by
    unfold is_local
    simp [List.all_eq_true]
  refine ⟨hiff, fun g hg r hr hne' => ?_⟩
  rcases hb : is_local gs dc with _ | _
  · rfl
  · exact absurd (hiff.mp hb g hg r hr) hne'

/-- Witness for C8 at a concrete input: groups `[[0, 1], [2, 5]]` with two
devices per node; rank 5 of the second group lives on node 2 while the
group's first member lives on node 1, so `is_local` is `false`. -/
theorem C8_witness :
    ((∀ g ∈ [[0, 1], [2, 5]], g ≠ ([] : List Nat)) ∧ 0 < 2
      ∧ 5 ∈ [2, 5] ∧ 5 / 2 ≠ ([2, 5] : List Nat).headI / 2)
    ∧ is_local [[0, 1], [2, 5]] 2 = false :=
  ⟨⟨by decide, by decide, by decide, by decide⟩,
    (C8_is_local_locality [[0, 1], [2, 5]] 2 (by decide) (by decide)).2
      [2, 5] (by decide) 5 (by decide) (by decide)⟩

/-- C5: for participants with pairwise distinct rank identities, the aggregate
produced by the rendezvous combine function is the same for any arrival order
(permutation invariance), contains exactly the submitted values, and is sorted
ascending by rank. -/
theorem C5_rendezvous_sorted_invariant (l1 l2 : List RendezvousValue)
    (hperm : l1.Perm l2) (hranks : (l1.map RendezvousValue.rank).Nodup) :
    rendezvous_fn l1 = rendezvous_fn l2
    ∧ (rendezvous_fn l1).Perm l1
    ∧ (rendezvous_fn l1).Pairwise (fun a b => a.rank ≤ b.rank) := by
  have htrans : ∀ a b c : RendezvousValue,
      rendezvousLe a b → rendezvousLe b c → rendezvousLe a c := by
    intro a b c hab hbc
    simp only [rendezvousLe, decide_eq_true_eq] at hab hbc ⊢
    omega
  have htotal : ∀ a b : RendezvousValue, rendezvousLe a b || rendezvousLe b a := by
    intro a b
    simp only [rendezvousLe]
    by_cases h : a.rank ≤ b.rank <;> simp [h] <;> omega
  have hsorted : ∀ l : List RendezvousValue,
      (l.mergeSort rendezvousLe).Pairwise (fun a b => a.rank ≤ b.rank) := by
    intro l
    have hs := @List.sorted_mergeSort RendezvousValue rendezvousLe htrans htotal l
    exact hs.imp (by intro a b h; simpa [rendezvousLe] using h)
  have hne1 : l1.Pairwise (fun a b => a.rank ≠ b.rank) :=
    (List.pairwise_map.mp hranks)
  have hsymm : ∀ {x y : RendezvousValue}, x.rank ≠ y.rank → y.rank ≠ x.rank :=
    fun h => h.symm
  have hstrict : ∀ l : List RendezvousValue,
      l.Pairwise (fun a b => a.rank ≠ b.rank) →
      (l.mergeSort rendezvousLe).Pairwise (fun a b => a.rank < b.rank) := by
    intro l hl
    have hp : (l.mergeSort rendezvousLe).Pairwise (fun a b => a.rank ≠ b.rank) :=
      ((List.mergeSort_perm l rendezvousLe).pairwise_iff hsymm).mpr hl
    exact ((hsorted l).and hp).imp (fun h => lt_of_le_of_ne h.1 h.2)
  have hne2 : l2.Pairwise (fun a b => a.rank ≠ b.rank) :=
    (hperm.pairwise_iff hsymm).mp hne1
  haveI : IsAntisymm RendezvousValue (fun a b => a.rank < b.rank) :=
    ⟨fun a b h1 h2 => absurd (h1.trans h2) (lt_irrefl _)⟩
  have heq : rendezvous_fn l1 = rendezvous_fn l2 := by
    apply List.eq_of_perm_of_sorted (r := fun a b : RendezvousValue => a.rank < b.rank)
    · exact (List.mergeSort_perm l1 _).trans (hperm.trans (List.mergeSort_perm l2 _).symm)
    · exact hstrict l1 hne1
    · exact hstrict l2 hne2
  exact ⟨heq, List.mergeSort_perm l1 _, hsorted l1⟩

/-- Witness for C5 at a concrete input: two arrival orders of the same three
participants produce the same sorted aggregate. -/
theorem C5_witness :
    (([⟨2, 20, 1, 2⟩, ⟨0, 30, 3, 4⟩, ⟨1, 10, 5, 6⟩] : List RendezvousValue).Perm
        [⟨1, 10, 5, 6⟩, ⟨2, 20, 1, 2⟩, ⟨0, 30, 3, 4⟩]
      ∧ (([⟨2, 20, 1, 2⟩, ⟨0, 30, 3, 4⟩, ⟨1, 10, 5, 6⟩] : List RendezvousValue).map
          RendezvousValue.rank).Nodup)
    ∧ rendezvous_fn [⟨2, 20, 1, 2⟩, ⟨0, 30, 3, 4⟩, ⟨1, 10, 5, 6⟩]
        = rendezvous_fn [⟨1, 10, 5, 6⟩, ⟨2, 20, 1, 2⟩, ⟨0, 30, 3, 4⟩] :=
  ⟨⟨by decide, by decide⟩,
    (C5_rendezvous_sorted_invariant _ _ (by decide) (by decide)).1⟩

/-- C2 counterexample: the claimed order (metadata load, then offset
resolution, then transport selection, with the offset-resolution pass running
in both transports) is false on the code.  Concretely, in the memory-copy
execution the offset-resolution pass never occurs at all, and in the
point-to-point execution the pass runs before (not after) the metadata load
and the transport is selected before (not after) the pass runs. -/
theorem C2_counterexample :
    Step.offsetResolution ∉ executionSteps true
    ∧ executionSteps false =
        [Step.legalityCheck, Step.selectTransport, Step.offsetResolution,
         Step.loadMetadata, Step.p2pExchange] := by
  exact ⟨by decide, rfl⟩

/-- C2 amended: on every execution, after the one-time legality check the
orchestrator selects the transport first; in the point-to-point path the
offset-resolution pass then runs before the metadata load, which runs before
the exchange; in the memory-copy path the metadata load runs before the
exchange and the offset-resolution pass does not run at all. -/
theorem C2_amended_control_flow :
    ((executionSteps false).head? = some Step.legalityCheck
      ∧ (executionSteps true).head? = some Step.legalityCheck)
    ∧ ((executionSteps false)[1]? = some Step.selectTransport
      ∧ (executionSteps true)[1]? = some Step.selectTransport)
    ∧ (executionSteps false).indexOf Step.offsetResolution
        < (executionSteps false).indexOf Step.loadMetadata
    ∧ (executionSteps false).indexOf Step.loadMetadata
        < (executionSteps false).indexOf Step.p2pExchange
    ∧ Step.offsetResolution ∉ executionSteps true
    ∧ (executionSteps true).indexOf Step.loadMetadata
        < (executionSteps true).indexOf Step.memcpyExchange := by
  decide

theorem firstStatusError_ok (l : List MStatus) (h : ∀ s ∈ l, s = .ok) :
    firstStatusError l = .ok := by
  induction l with
  | nil => rfl
  | cons s rest ih =>
      have hs := h s (by simp)
      subst hs
      exact ih (fun s' hs' => h s' (List.mem_cons_of_mem _ hs'))

/-- C6: with every operand passing the layout check, an offsets/sizes operand
whose element type is not a 64-bit signed integer makes `CheckImplementable`
return an invalid-argument error carrying the explicit S64-only message — it
never returns success (no silent truncation); and a result layout whose
ragged dimension is not effectively most-major makes it return an
unimplemented error carrying the descriptive most-major message. -/
theorem C6_check_implementable_rejects (instr : MInstr) (desc : String)
    (hvalid : ∀ s ∈ instr.operands, s.valid_operand = true) :
    (instr.result_most_major_ragged = true →
      (instr.operands.getD 2 default).element_type ≠ PrimT.s64 →
      CheckImplementable instr desc
          = .invalidArgumentError (s64OffsetsMsg ++ desc)
        ∧ CheckImplementable instr desc ≠ .ok)
    ∧ (instr.result_most_major_ragged = false →
      CheckImplementable instr desc
          = .unimplementedError (mostMajorMsg instr.result_layout_str ++ desc)
        ∧ CheckImplementable instr desc ≠ .ok) := by
  have hfirst : firstStatusError (instr.operands.map IsValidOperand) = .ok := by
    apply firstStatusError_ok
    intro s hs
    rcases List.mem_map.mp hs with ⟨sh, hsh, rfl⟩
    simp [IsValidOperand, hvalid sh hsh]
  constructor
  · intro hmm ht
    unfold CheckImplementable
    rw [hfirst]
    rw [List.getD_eq_getElem?_getD] at ht
    simp [hmm, ht, AddOpDescription]
  · intro hmm
    unfold CheckImplementable
    rw [hfirst]
    simp [hmm, AddOpDescription]

/-- Witness for C6 at a concrete input: an instruction whose offsets operand
has 32-bit integer element type is rejected with the S64-only
invalid-argument error. -/
theorem C6_witness :
    ((∀ s ∈ ([⟨.f32, true⟩, ⟨.f32, true⟩, ⟨.s32, true⟩, ⟨.s32, true⟩] : List MShape),
        s.valid_operand = true)
      ∧ (⟨[⟨.f32, true⟩, ⟨.f32, true⟩, ⟨.s32, true⟩, ⟨.s32, true⟩], true, "x"⟩ :
          MInstr).result_most_major_ragged = true
      ∧ ((⟨[⟨.f32, true⟩, ⟨.f32, true⟩, ⟨.s32, true⟩, ⟨.s32, true⟩], true, "x"⟩ :
          MInstr).operands.getD 2 default).element_type ≠ PrimT.s64)
    ∧ CheckImplementable
        ⟨[⟨.f32, true⟩, ⟨.f32, true⟩, ⟨.s32, true⟩, ⟨.s32, true⟩], true, "x"⟩ " (op)"
        = .invalidArgumentError (s64OffsetsMsg ++ " (op)") :=
  ⟨⟨by decide, by decide, by decide⟩,
    ((C6_check_implementable_rejects
        ⟨[⟨.f32, true⟩, ⟨.f32, true⟩, ⟨.s32, true⟩, ⟨.s32, true⟩], true, "x"⟩ " (op)"
        (by decide)).1 (by decide) (by decide)).1⟩

theorem initHostBuffers_fields (A : Allocator) (p : InitializeParams)
    (s : ThunkState) :
    (initHostBuffers A p s).1.device_count = s.device_count
    ∧ (initHostBuffers A p s).1.device_buffer_allocs = s.device_buffer_allocs
    ∧ (initHostBuffers A p s).1.start_events = s.start_events
    ∧ (initHostBuffers A p s).1.end_events = s.end_events := by
  unfold initHostBuffers
  split <;> simp

theorem initHostBuffers_isSome (A : Allocator) (p : InitializeParams)
    (s : ThunkState) :
    ((initHostBuffers A p s).1.host_buffer_allocs.lookup p.executor).isSome = true := by
  unfold initHostBuffers
  split
  next h => exact h
  next h => simp

theorem initHostBuffers_skip (A : Allocator) (p : InitializeParams)
    (s : ThunkState)
    (h : (s.host_buffer_allocs.lookup p.executor).isSome = true) :
    initHostBuffers A p s = (s, []) := by
  unfold initHostBuffers
  simp [h]

theorem initHostBuffers_events (A : Allocator) (p : InitializeParams)
    (s : ThunkState) :
    ∀ e ∈ (initHostBuffers A p s).2, ∃ i, e = AllocEvent.hostBuffer p.executor i := by
  intro e he
  unfold initHostBuffers at he
  split at he
  · simp at he
  · rcases List.mem_map.mp he with ⟨i, _, rfl⟩
    exact ⟨i, rfl⟩

theorem initDeviceBuffer_fields (A : Allocator) (p : InitializeParams)
    (s : ThunkState) :
    (initDeviceBuffer A p s).1.device_count = s.device_count
    ∧ (initDeviceBuffer A p s).1.host_buffer_allocs = s.host_buffer_allocs
    ∧ (initDeviceBuffer A p s).1.start_events = s.start_events
    ∧ (initDeviceBuffer A p s).1.end_events = s.end_events := by
  unfold initDeviceBuffer
  split <;> simp

theorem initDeviceBuffer_isSome (A : Allocator) (p : InitializeParams)
    (s : ThunkState) :
    ((initDeviceBuffer A p s).1.device_buffer_allocs.lookup p.executor).isSome = true := by
  unfold initDeviceBuffer
  split
  next h => exact h
  next h => simp

theorem initDeviceBuffer_skip (A : Allocator) (p : InitializeParams)
    (s : ThunkState)
    (h : (s.device_buffer_allocs.lookup p.executor).isSome = true) :
    initDeviceBuffer A p s = (s, []) := by
  unfold initDeviceBuffer
  simp [h]

theorem initDeviceBuffer_events (A : Allocator) (p : InitializeParams)
    (s : ThunkState) :
    ∀ e ∈ (initDeviceBuffer A p s).2, e = AllocEvent.deviceBuffer p.executor := by
  intro e he
  unfold initDeviceBuffer at he
  split at he
  · simp at he
  · simpa using he

theorem initStartEvent_fields (A : Allocator) (p : InitializeParams)
    (s : ThunkState) :
    (initStartEvent A p s).1.device_count = s.device_count
    ∧ (initStartEvent A p s).1.host_buffer_allocs = s.host_buffer_allocs
    ∧ (initStartEvent A p s).1.device_buffer_allocs = s.device_buffer_allocs
    ∧ (initStartEvent A p s).1.end_events = s.end_events := by
  unfold initStartEvent
  split <;> simp

theorem initStartEvent_isSome (A : Allocator) (p : InitializeParams)
    (s : ThunkState) :
    ((initStartEvent A p s).1.start_events.lookup p.executor).isSome = true := by
  unfold initStartEvent
  split
  next h => exact h
  next h => simp

theorem initStartEvent_skip (A : Allocator) (p : InitializeParams)
    (s : ThunkState)
    (h : (s.start_events.lookup p.executor).isSome = true) :
    initStartEvent A p s = (s, []) := by
  unfold initStartEvent
  simp [h]

theorem initEndEvent_fields (A : Allocator) (p : InitializeParams)
    (s : ThunkState) :
    (initEndEvent A p s).1.device_count = s.device_count
    ∧ (initEndEvent A p s).1.host_buffer_allocs = s.host_buffer_allocs
    ∧ (initEndEvent A p s).1.device_buffer_allocs = s.device_buffer_allocs
    ∧ (initEndEvent A p s).1.start_events = s.start_events := by
  unfold initEndEvent
  split <;> simp

theorem initEndEvent_isSome (A : Allocator) (p : InitializeParams)
    (s : ThunkState) :
    ((initEndEvent A p s).1.end_events.lookup p.executor).isSome = true := by
  unfold initEndEvent
  split
  next h => exact h
  next h => simp

theorem initEndEvent_skip (A : Allocator) (p : InitializeParams)
    (s : ThunkState)
    (h : (s.end_events.lookup p.executor).isSome = true) :
    initEndEvent A p s = (s, []) := by
  unfold initEndEvent
  simp [h]

theorem initEvents_isSome (A : Allocator) (p : InitializeParams)
    (s : ThunkState) :
    ((initEvents A p s).1.start_events.lookup p.executor).isSome = true
    ∧ ((initEvents A p s).1.end_events.lookup p.executor).isSome = true := by
  constructor
  · show (((initEndEvent A p (initStartEvent A p s).1).1.start_events.lookup
        p.executor).isSome = true)
    rw [(initEndEvent_fields A p _).2.2.2]
    exact initStartEvent_isSome A p s
  · exact initEndEvent_isSome A p _

theorem initEvents_skip (A : Allocator) (p : InitializeParams) (s : ThunkState)
    (h1 : (s.start_events.lookup p.executor).isSome = true)
    (h2 : (s.end_events.lookup p.executor).isSome = true) :
    initEvents A p s = (s, []) := by
  unfold initEvents
  rw [initStartEvent_skip A p s h1]
  rw [show ((s, []) : ThunkState × List AllocEvent).1 = s from rfl]
  rw [initEndEvent_skip A p s h2]
  rfl

theorem Initialize_head_state (A : Allocator) (f : Bool) (s : ThunkState)
    (p : InitializeParams) :
    (Initialize A f s p).1.device_count = p.local_device_count
    ∧ ((Initialize A f s p).1.host_buffer_allocs.lookup p.executor).isSome = true
    ∧ ((Initialize A f s p).1.device_buffer_allocs.lookup p.executor).isSome = true := by
  unfold Initialize initStage3
  rcases f with _ | _
  · simp only [Bool.false_eq_true, if_false]
    refine ⟨?_, ?_, ?_⟩
    · rw [(initDeviceBuffer_fields A p _).1, (initHostBuffers_fields A p _).1]
    · rw [(initDeviceBuffer_fields A p _).2.1]
      exact initHostBuffers_isSome A p _
    · exact initDeviceBuffer_isSome A p _
  · simp only [if_true]
    have hev := initEvents A p (initDeviceBuffer A p
      (initHostBuffers A p { s with device_count := p.local_device_count }).1).1
    refine ⟨?_, ?_, ?_⟩
    · show (initEvents A p _).1.device_count = _
      unfold initEvents
      rw [(initEndEvent_fields A p _).1, (initStartEvent_fields A p _).1,
        (initDeviceBuffer_fields A p _).1, (initHostBuffers_fields A p _).1]
    · show ((initEvents A p _).1.host_buffer_allocs.lookup p.executor).isSome = true
      unfold initEvents
      rw [(initEndEvent_fields A p _).2.1, (initStartEvent_fields A p _).2.1,
        (initDeviceBuffer_fields A p _).2.1]
      exact initHostBuffers_isSome A p _
    · show ((initEvents A p _).1.device_buffer_allocs.lookup p.executor).isSome = true
      unfold initEvents
      rw [(initEndEvent_fields A p _).2.2.1, (initStartEvent_fields A p _).2.2.1]
      exact initDeviceBuffer_isSome A p _

theorem Initialize_events_isSome (A : Allocator) (s : ThunkState)
    (p : InitializeParams) :
    ((Initialize A true s p).1.start_events.lookup p.executor).isSome = true
    ∧ ((Initialize A true s p).1.end_events.lookup p.executor).isSome = true := by
  unfold Initialize initStage3
  simp only [if_true]
  exact initEvents_isSome A p _

/-- C9: `Initialize` is idempotent per device: a second call with the same
parameters returns the state unchanged and performs no allocation (hence
over any number of calls each of the host metadata scratch buffers, the
device-resident output-offsets scratch buffer and the start/end events is
allocated at most once); and when the memory-copy transport is disabled the
start/end event caches are never touched and no event is ever allocated. -/
theorem C9_initialize_idempotent (A : Allocator) (f : Bool) (s : ThunkState)
    (p : InitializeParams) :
    Initialize A f (Initialize A f s p).1 p = ((Initialize A f s p).1, [])
    ∧ (Initialize A false s p).1.start_events = s.start_events
    ∧ (Initialize A false s p).1.end_events = s.end_events
    ∧ (∀ e ∈ (Initialize A false s p).2, ∀ x,
        e ≠ AllocEvent.startEvent x ∧ e ≠ AllocEvent.endEvent x) := by
  refine ⟨?_, ?_, ?_, ?_⟩
  · obtain ⟨hdc, hh, hd⟩ := Initialize_head_state A f s p
    set t := (Initialize A f s p).1 with ht
    have ht1 : { t with device_count := p.local_device_count } = t := by
      rw [← hdc]
    unfold Initialize
    rw [ht1, initHostBuffers_skip A p t hh]
    rw [show ((t, []) : ThunkState × List AllocEvent).1 = t from rfl]
    rw [initDeviceBuffer_skip A p t hd]
    rw [show ((t, []) : ThunkState × List AllocEvent).1 = t from rfl]
    rcases f with _ | _
    · unfold initStage3
      simp
    · obtain ⟨hse, hee⟩ := Initialize_events_isSome A s p
      rw [← ht] at hse hee
      unfold initStage3
      simp only [if_true]
      rw [initEvents_skip A p t hse hee]
      rfl
  · unfold Initialize initStage3
    simp only [Bool.false_eq_true, if_false]
    rw [(initDeviceBuffer_fields A p _).2.2.1, (initHostBuffers_fields A p _).2.2.1]
  · unfold Initialize initStage3
    simp only [Bool.false_eq_true, if_false]
    rw [(initDeviceBuffer_fields A p _).2.2.2, (initHostBuffers_fields A p _).2.2.2]
  · intro e he x
    unfold Initialize initStage3 at he
    simp only [Bool.false_eq_true, if_false, List.append_nil] at he
    rcases List.mem_append.mp he with h | h
    · rcases initHostBuffers_events A p _ e h with ⟨i, rfl⟩
      exact ⟨by simp, by simp⟩
    · rw [initDeviceBuffer_events A p _ e h]
      exact ⟨by simp, by simp⟩

theorem memcpySyncTrace_eq (n : Nat) :
    memcpySyncTrace n = .recordStart :: .enterStartRendezvous ::
      ((List.range n).map SyncAct.waitPeerStart
        ++ (.copyPhase :: .recordEnd :: .enterFinishRendezvous ::
          ((List.range n).map SyncAct.waitPeerEnd ++ [.retOk]))) := by
  simp [memcpySyncTrace]

theorem memcpySyncTrace_length (n : Nat) :
    (memcpySyncTrace n).length = 6 + 2 * n := by
  simp [memcpySyncTrace]
  omega

theorem memcpySyncTrace_waitStart (n p : Nat) (hp : p < n) :
    (memcpySyncTrace n)[2 + p]? = some (.waitPeerStart p) := by
  rw [memcpySyncTrace_eq, show 2 + p = p + 1 + 1 from by omega,
    List.getElem?_cons_succ, List.getElem?_cons_succ,
    List.getElem?_append_left (by simpa using hp)]
  simp [List.getElem?_range hp]

theorem memcpySyncTrace_tail (n k : Nat) :
    (memcpySyncTrace n)[2 + n + k]? =
      (SyncAct.copyPhase :: .recordEnd :: .enterFinishRendezvous ::
        ((List.range n).map SyncAct.waitPeerEnd ++ [.retOk]))[k]? := by
  rw [memcpySyncTrace_eq, show 2 + n + k = n + k + 1 + 1 from by omega,
    List.getElem?_cons_succ, List.getElem?_cons_succ,
    List.getElem?_append_right (by simpa using Nat.le_add_right n k)]
  congr 1
  simp

theorem memcpySyncTrace_recordEnd (n : Nat) :
    (memcpySyncTrace n)[3 + n]? = some SyncAct.recordEnd := by
  rw [show 3 + n = 2 + n + 1 from by omega, memcpySyncTrace_tail]
  rfl

theorem memcpySyncTrace_enterFinish (n : Nat) :
    (memcpySyncTrace n)[4 + n]? = some SyncAct.enterFinishRendezvous := by
  rw [show 4 + n = 2 + n + 2 from by omega, memcpySyncTrace_tail]
  simp

theorem memcpySyncTrace_waitEnd (n p : Nat) (hp : p < n) :
    (memcpySyncTrace n)[5 + n + p]? = some (.waitPeerEnd p) := by
  rw [show 5 + n + p = 2 + n + (p + 1 + 1 + 1) from by omega, memcpySyncTrace_tail,
    List.getElem?_cons_succ, List.getElem?_cons_succ, List.getElem?_cons_succ,
    List.getElem?_append_left (by simpa using hp)]
  simp [List.getElem?_range hp]

theorem memcpySyncTrace_retOk (n : Nat) :
    (memcpySyncTrace n)[5 + 2 * n]? = some SyncAct.retOk := by
  rw [show 5 + 2 * n = 2 + n + (n + 1 + 1 + 1) from by omega, memcpySyncTrace_tail,
    List.getElem?_cons_succ, List.getElem?_cons_succ, List.getElem?_cons_succ,
    List.getElem?_append_right (by simp)]
  simp

/-- C4: in the memory-copy transport, the local start event is recorded
strictly before the thread enters the first rendezvous, and the local end
event is recorded strictly before the thread enters the second (payload-free)
rendezvous; therefore, in every valid schedule (program order per thread,
plus the barrier guarantee that every thread arrives at a rendezvous before
any thread proceeds past it), each thread's start event is recorded before
any peer issues its wait on that event, each thread's end event is recorded
before any peer issues its wait on that event, and the success return happens
only after the thread has issued waits for every peer's end event. -/
theorem C4_memcpy_sync_ordering (n : Nat) (sched : Nat → Nat → Nat)
    (hprog : ∀ t < n, ∀ j < (memcpySyncTrace n).length, ∀ i < j, sched t i < sched t j)
    (hbar1 : ∀ t < n, ∀ u < n, sched t 1 < sched u 2)
    (hbar2 : ∀ t < n, ∀ u < n, sched t (4 + n) < sched u (5 + n)) :
    ((memcpySyncTrace n)[0]? = some SyncAct.recordStart
      ∧ (memcpySyncTrace n)[1]? = some SyncAct.enterStartRendezvous
      ∧ (memcpySyncTrace n)[3 + n]? = some SyncAct.recordEnd
      ∧ (memcpySyncTrace n)[4 + n]? = some SyncAct.enterFinishRendezvous
      ∧ (memcpySyncTrace n)[5 + 2 * n]? = some SyncAct.retOk)
    ∧ (∀ t < n, (memcpySyncTrace n)[2 + t]? = some (.waitPeerStart t)
        ∧ (memcpySyncTrace n)[5 + n + t]? = some (.waitPeerEnd t))
    ∧ (∀ t < n, ∀ u < n, sched t 0 < sched u (2 + t))
    ∧ (∀ t < n, ∀ u < n, sched t (3 + n) < sched u (5 + n + t))
    ∧ (∀ t < n, ∀ p < n, sched t (5 + n + p) < sched t (5 + 2 * n)) := by
  have hlen := memcpySyncTrace_length n
  refine ⟨⟨by simp [memcpySyncTrace_eq], by simp [memcpySyncTrace_eq],
      memcpySyncTrace_recordEnd n, memcpySyncTrace_enterFinish n,
      memcpySyncTrace_retOk n⟩, ?_, ?_, ?_, ?_⟩
  · exact fun t ht =>
      ⟨memcpySyncTrace_waitStart n t ht, memcpySyncTrace_waitEnd n t ht⟩
  · intro t ht u hu
    have h1 : sched t 0 < sched t 1 := hprog t ht 1 (by omega) 0 (by omega)
    have h2 : sched t 1 < sched u 2 := hbar1 t ht u hu
    have h3 : sched u 2 ≤ sched u (2 + t) := by
      rcases Nat.eq_zero_or_pos t with h | h
      · subst h; rfl
      · exact Nat.le_of_lt (hprog u hu (2 + t) (by omega) 2 (by omega))
    omega
  · intro t ht u hu
    have h1 : sched t (3 + n) < sched t (4 + n) :=
      hprog t ht (4 + n) (by omega) (3 + n) (by omega)
    have h2 : sched t (4 + n) < sched u (5 + n) := hbar2 t ht u hu
    have h3 : sched u (5 + n) ≤ sched u (5 + n + t) := by
      rcases Nat.eq_zero_or_pos t with h | h
      · subst h; rfl
      · exact Nat.le_of_lt (hprog u hu (5 + n + t) (by omega) (5 + n) (by omega))
    omega
  · intro t ht p hp
    exact hprog t ht (5 + 2 * n) (by omega) (5 + n + p) (by omega)

/-- Witness for C4 at a concrete input: two threads executing the trace under
the round-robin schedule `time = 3 * position + thread`, which satisfies
program order and both barrier constraints. -/
theorem C4_witness :
    ((∀ t < 2, ∀ j < (memcpySyncTrace 2).length, ∀ i < j,
        (fun (t i : Nat) => 3 * i + t) t i < (fun (t i : Nat) => 3 * i + t) t j)
      ∧ (∀ t < 2, ∀ u < 2,
        (fun (t i : Nat) => 3 * i + t) t 1 < (fun (t i : Nat) => 3 * i + t) u 2)
      ∧ (∀ t < 2, ∀ u < 2,
        (fun (t i : Nat) => 3 * i + t) t (4 + 2) < (fun (t i : Nat) => 3 * i + t) u (5 + 2)))
    ∧ (∀ t < 2, ∀ u < 2,
        (fun (t i : Nat) => 3 * i + t) t 0 < (fun (t i : Nat) => 3 * i + t) u (2 + t)) :=
  ⟨⟨by decide, by decide, by decide⟩,
    (C4_memcpy_sync_ordering 2 (fun t i => 3 * i + t) (by decide) (by decide)
      (by decide)).2.2.1⟩

theorem except_bind_ok {ε α β : Type} (a : α) (g : α → Except ε β) :
    (Except.ok a >>= g) = g a := rfl

theorem except_bind_error {ε α β : Type} (e : ε) (g : α → Except ε β) :
    ((Except.error e : Except ε α) >>= g) = Except.error e := rfl

theorem except_bind_unit {ε : Type} (x : Except ε Unit) :
    (x >>= fun _ => (Except.ok () : Except ε Unit)) = x := by
  cases x with
  | error e => rfl
  | ok u => cases u; rfl

theorem runCmds_append {ε : Type} (f : NcclCmd → Except ε Unit)
    (l1 l2 : List NcclCmd) :
    runCmds f (l1 ++ l2) = runCmds f l1 >>= fun _ => runCmds f l2 := by
  induction l1 with
  | nil =>
      show runCmds f l2 = Except.ok () >>= fun _ => runCmds f l2
      rfl
  | cons c l ih =>
      show f c >>= (fun _ => runCmds f (l ++ l2))
          = (f c >>= fun _ => runCmds f l) >>= fun _ => runCmds f l2
      cases f c with
      | error e => rfl
      | ok u => cases u; exact ih

theorem runCmds_pair {ε : Type} (f : NcclCmd → Except ε Unit) (c1 c2 : NcclCmd) :
    runCmds f [c1, c2] = f c1 >>= fun _ => f c2 := by
  show (f c1 >>= fun _ => f c2 >>= fun _ => Except.ok ()) = f c1 >>= fun _ => f c2
  cases f c1 with
  | error e => rfl
  | ok u => cases u; exact except_bind_unit _

theorem runCmds_all_ok {ε : Type} (f : NcclCmd → Except ε Unit)
    (l : List NcclCmd) (h : ∀ c ∈ l, f c = Except.ok ()) :
    runCmds f l = Except.ok () := by
  induction l with
  | nil => rfl
  | cons c l ih =>
      show f c >>= (fun _ => runCmds f l) = Except.ok ()
      rw [h c (List.mem_cons_self c l)]
      exact ih (fun c' hc' => h c' (List.mem_cons_of_mem _ hc'))

theorem forM_eq_runCmds {ε γ : Type} (f : NcclCmd → Except ε Unit) (l : List γ)
    (body : γ → Except ε Unit) (blk : γ → List NcclCmd)
    (h : ∀ x ∈ l, body x = runCmds f (blk x)) :
    l.forM body = runCmds f (l.flatMap blk) := by
  induction l with
  | nil => rfl
  | cons a l ih =>
      have ih' := ih (fun x hx => h x (List.mem_cons_of_mem _ hx))
      simp only [List.forM_cons', h a (List.mem_cons_self a l), ih',
        List.flatMap_cons, runCmds_append]

/-- C3: the point-to-point transport issues, inside one
`GroupStart`/`GroupEnd` bracket, for every update row `i < npr` and every
peer `p < n` with flattened index `idx = p * npr + i`, one send of
`sendSizes[idx] * raggedRowElementSize` elements at element offset
`inputOffsets[idx] * raggedRowElementSize` of the local input buffer to peer
`p` and one receive of `recvSizes[idx] * raggedRowElementSize` elements at
element offset `outputOffsets[idx] * raggedRowElementSize` of the local
output buffer from peer `p`; and the first failing enqueue aborts the
remaining iterations (the result is as if the commands after the failing one
were never issued) and is the returned error. -/
theorem C3_p2p_loop_structure (npr n rres : Nat)
    (inOff sendSz outOff recvSz : Nat → Nat) :
    (∀ (ε : Type) (f : NcclCmd → Except ε Unit),
      RunRaggedAllToAllEnqueue f npr n rres inOff sendSz outOff recvSz
        = runCmds f (p2pCmdList npr n rres inOff sendSz outOff recvSz))
    ∧ (∀ (ε : Type) (f : NcclCmd → Except ε Unit) (l1 : List NcclCmd)
        (c : NcclCmd) (l2 : List NcclCmd) (e : ε),
        p2pCmdList npr n rres inOff sendSz outOff recvSz = l1 ++ c :: l2 →
        (∀ c' ∈ l1, f c' = Except.ok ()) → f c = Except.error e →
        RunRaggedAllToAllEnqueue f npr n rres inOff sendSz outOff recvSz
            = Except.error e
          ∧ runCmds f (l1 ++ c :: l2) = runCmds f (l1 ++ [c])) := by
  have hmain : ∀ (ε : Type) (f : NcclCmd → Except ε Unit),
      RunRaggedAllToAllEnqueue f npr n rres inOff sendSz outOff recvSz
        = runCmds f (p2pCmdList npr n rres inOff sendSz outOff recvSz) := by
    intro ε f
    have hout : ((List.range npr).forM fun i =>
          (List.range n).forM fun peer =>
            f (.send (inOff (peer * npr + i) * rres) (sendSz (peer * npr + i) * rres) peer)
              >>= fun _ =>
            f (.recv (outOff (peer * npr + i) * rres) (recvSz (peer * npr + i) * rres) peer))
        = runCmds f ((List.range npr).flatMap fun i => (List.range n).flatMap fun peer =>
            [.send (inOff (peer * npr + i) * rres) (sendSz (peer * npr + i) * rres) peer,
             .recv (outOff (peer * npr + i) * rres) (recvSz (peer * npr + i) * rres) peer]) := by
      refine forM_eq_runCmds f _ _ _ (fun i _ => ?_)
      refine forM_eq_runCmds f _ _ _ (fun peer _ => ?_)
      rw [runCmds_pair]
    show (f .groupStart >>= fun _ =>
        ((List.range npr).forM fun i =>
          (List.range n).forM fun peer =>
            f (.send (inOff (peer * npr + i) * rres) (sendSz (peer * npr + i) * rres) peer)
              >>= fun _ =>
            f (.recv (outOff (peer * npr + i) * rres) (recvSz (peer * npr + i) * rres) peer))
          >>= fun _ => f .groupEnd)
      = runCmds f (p2pCmdList npr n rres inOff sendSz outOff recvSz)
    rw [hout]
    show _ = runCmds f (NcclCmd.groupStart ::
      (((List.range npr).flatMap fun i => (List.range n).flatMap fun peer =>
          [.send (inOff (peer * npr + i) * rres) (sendSz (peer * npr + i) * rres) peer,
           .recv (outOff (peer * npr + i) * rres) (recvSz (peer * npr + i) * rres) peer])
        ++ [NcclCmd.groupEnd]))
    show _ = (f .groupStart >>= fun _ =>
      runCmds f (((List.range npr).flatMap fun i => (List.range n).flatMap fun peer =>
          [.send (inOff (peer * npr + i) * rres) (sendSz (peer * npr + i) * rres) peer,
           .recv (outOff (peer * npr + i) * rres) (recvSz (peer * npr + i) * rres) peer])
        ++ [NcclCmd.groupEnd]))
    rw [runCmds_append]
    cases f NcclCmd.groupStart with
    | error e => rfl
    | ok u =>
        cases u
        rw [except_bind_ok, except_bind_ok]
        cases hmid : runCmds f ((List.range npr).flatMap fun i =>
            (List.range n).flatMap fun peer =>
              [.send (inOff (peer * npr + i) * rres) (sendSz (peer * npr + i) * rres) peer,
               .recv (outOff (peer * npr + i) * rres) (recvSz (peer * npr + i) * rres) peer]) with
        | error e => rfl
        | ok u =>
            cases u
            rw [except_bind_ok, except_bind_ok]
            show f NcclCmd.groupEnd = f NcclCmd.groupEnd >>= fun _ => Except.ok ()
            rw [except_bind_unit]
  refine ⟨hmain, ?_⟩
  intro ε f l1 c l2 e hdec hok herr
  have h1 : runCmds f (l1 ++ c :: l2) = Except.error e := by
    rw [runCmds_append, runCmds_all_ok f l1 hok, except_bind_ok]
    show f c >>= _ = _
    rw [herr, except_bind_error]
  have h2 : runCmds f (l1 ++ [c]) = Except.error e := by
    rw [runCmds_append, runCmds_all_ok f l1 hok, except_bind_ok]
    show f c >>= _ = _
    rw [herr, except_bind_error]
  exact ⟨by rw [hmain ε f, hdec, h1], by rw [h1, h2]⟩

/-- Witness for C3 at a concrete input: one rank, one update row, an enqueue
oracle that fails on every receive with error `7`; the transport returns
error `7`. -/
theorem C3_witness :
    (p2pCmdList 1 1 1 id id id id
        = [NcclCmd.groupStart, NcclCmd.send 0 0 0]
            ++ NcclCmd.recv 0 0 0 :: [NcclCmd.groupEnd]
      ∧ (∀ c' ∈ [NcclCmd.groupStart, NcclCmd.send 0 0 0],
          (fun c => match c with
            | NcclCmd.recv _ _ _ => (Except.error 7 : Except Nat Unit)
            | _ => Except.ok ()) c' = Except.ok ())
      ∧ (fun c => match c with
            | NcclCmd.recv _ _ _ => (Except.error 7 : Except Nat Unit)
            | _ => Except.ok ()) (NcclCmd.recv 0 0 0) = Except.error 7)
    ∧ RunRaggedAllToAllEnqueue (fun c => match c with
          | NcclCmd.recv _ _ _ => (Except.error 7 : Except Nat Unit)
          | _ => Except.ok ()) 1 1 1 id id id id = Except.error 7 :=
  ⟨⟨by decide, by decide, rfl⟩,
    ((C3_p2p_loop_structure 1 1 1 id id id id).2 Nat _
      [NcclCmd.groupStart, NcclCmd.send 0 0 0] (NcclCmd.recv 0 0 0)
      [NcclCmd.groupEnd] 7 (by decide) (by decide) rfl).1⟩

theorem a2aIndexBuffer_char {α : Type} (src : Nat → Nat → α) (npr n : Nat)
    (dest0 : Nat → α) (p r j : Nat) (hr : r < n) (hj : j < npr) :
    RunAllToAllOnIndexBuffer src npr n dest0 p (r * npr + j)
      = src r (p * npr + j) := by
  have key : ∀ q, q * npr ≤ r * npr + j → r * npr + j < q * npr + npr → q = r := by
    intro q h1 h2
    rcases Nat.lt_trichotomy q r with h | h | h
    · exfalso
      have hq : q * npr + npr ≤ r * npr := by
        calc q * npr + npr = (q + 1) * npr := by ring
          _ ≤ r * npr := Nat.mul_le_mul_right npr h
      omega
    · exact h
    · exfalso
      have hq : r * npr + npr ≤ q * npr := by
        calc r * npr + npr = (r + 1) * npr := by ring
          _ ≤ q * npr := Nat.mul_le_mul_right npr h
      omega
  unfold RunAllToAllOnIndexBuffer
  rw [applyWrites_cover (a2aIndexWrites src npr n p) dest0 (r * npr + j)
      ⟨r * npr, npr, fun k => src r (p * npr + k)⟩
      (List.mem_map.mpr ⟨r, List.mem_range.mpr hr, rfl⟩)
      ⟨Nat.le_add_right _ _, show r * npr + j < r * npr + npr by omega⟩
      ?_]
  · simp
  · intro w' hw' hc'
    rcases List.mem_map.mp hw' with ⟨q, hq, rfl⟩
    obtain ⟨h1, h2⟩ := hc'
    have : q = r := key q h1 h2
    subst this
    rfl

/-- C7: when the clique has exactly one rank, the offset-resolution pass
writes the destination buffer equal to the source buffer on every meaningful
index (the identity mapping: with one rank there are `npr = numTotalUpdates`
entries); and in general its enqueue trace is one grouped bracket containing,
for each peer, one send and one receive of `npr` contiguous elements at
element offset `peer * npr`, followed by blocking the host until the stream
completes before returning. -/
theorem C7_index_buffer_alltoall (npr n : Nat) :
    (∀ (α : Type) (src : Nat → Nat → α) (dest0 : Nat → α) (x : Nat), x < npr →
      RunAllToAllOnIndexBuffer src npr 1 dest0 0 x = src 0 x)
    ∧ (∀ (ε : Type) (f : NcclCmd → Except ε Unit),
      RunAllToAllOnIndexBufferEnqueue f npr n = runCmds f (a2aIndexCmdList npr n)) := by
  constructor
  · intro α src dest0 x hx
    have h := a2aIndexBuffer_char src npr 1 dest0 0 0 x (by omega) hx
    simpa using h
  · intro ε f
    have hout : ((List.range n).forM fun peer =>
          f (.send (peer * npr) npr peer) >>= fun _ =>
          f (.recv (peer * npr) npr peer))
        = runCmds f ((List.range n).flatMap fun peer =>
            [.send (peer * npr) npr peer, .recv (peer * npr) npr peer]) := by
      refine forM_eq_runCmds f _ _ _ (fun peer _ => ?_)
      rw [runCmds_pair]
    show (f .groupStart >>= fun _ =>
        ((List.range n).forM fun peer =>
          f (.send (peer * npr) npr peer) >>= fun _ =>
          f (.recv (peer * npr) npr peer))
          >>= fun _ => f .groupEnd >>= fun _ => f .blockHost)
      = runCmds f (a2aIndexCmdList npr n)
    rw [hout]
    show _ = (f .groupStart >>= fun _ =>
      runCmds f (((List.range n).flatMap fun peer =>
          [.send (peer * npr) npr peer, .recv (peer * npr) npr peer])
        ++ [NcclCmd.groupEnd, NcclCmd.blockHost]))
    rw [runCmds_append]
    cases f NcclCmd.groupStart with
    | error e => rfl
    | ok u =>
        cases u
        rw [except_bind_ok, except_bind_ok]
        cases hmid : runCmds f ((List.range n).flatMap fun peer =>
            [.send (peer * npr) npr peer, .recv (peer * npr) npr peer]) with
        | error e => rfl
        | ok u =>
            cases u
            rw [except_bind_ok, except_bind_ok, runCmds_pair]

/-- Witness for C7 at a concrete input: a single-rank clique with two updates
per replica maps index 1 of the source buffer to index 1 of the destination
buffer unchanged. -/
theorem C7_witness :
    (1 < 2)
    ∧ RunAllToAllOnIndexBuffer (fun r idx => r + 10 * idx) 2 1 (fun _ => 99) 0 1
        = (fun (r idx : Nat) => r + 10 * idx) 0 1 :=
  ⟨by decide, (C7_index_buffer_alltoall 2 3).1 Nat _ _ 1 (by decide)⟩

theorem flatMap_congr_mem {γ δ : Type} {l : List γ} {f g : γ → List δ}
    (h : ∀ x ∈ l, f x = g x) : l.flatMap f = l.flatMap g := by
  induction l with
  | nil => rfl
  | cons a l ih =>
      rw [List.flatMap_cons, List.flatMap_cons, h a (List.mem_cons_self a l),
        ih (fun x hx => h x (List.mem_cons_of_mem _ hx))]

theorem flatMap_singleton_map {γ δ : Type} (l : List γ) (g : γ → δ) :
    (l.flatMap fun x => [g x]) = l.map g := by
  induction l with
  | nil => rfl
  | cons a l ih => rw [List.flatMap_cons, ih]; rfl

theorem perm_swap_middle {δ : Type} (A F G : List δ) :
    (A ++ (F ++ G)).Perm (F ++ (A ++ G)) := by
  refine List.Perm.trans (List.Perm.of_eq (List.append_assoc A F G).symm) ?_
  refine List.Perm.trans (List.perm_append_comm.append_right G) ?_
  exact List.Perm.of_eq (List.append_assoc F A G)

theorem flatMap_append_perm {γ δ : Type} (l : List γ) (f g : γ → List δ) :
    (l.flatMap fun x => f x ++ g x).Perm (l.flatMap f ++ l.flatMap g) := by
  induction l with
  | nil => simp
  | cons a l ih =>
      rw [List.flatMap_cons, List.flatMap_cons, List.flatMap_cons]
      refine List.Perm.trans (List.Perm.append_left (f a ++ g a) ih) ?_
      refine List.Perm.trans
        (List.Perm.of_eq (List.append_assoc (f a) (g a) _)) ?_
      refine List.Perm.trans
        (List.Perm.append_left (f a) (perm_swap_middle (g a) _ _)) ?_
      exact List.Perm.of_eq (List.append_assoc (f a) _ _).symm

theorem flatMap_transpose_perm {δ : Type} (m k : Nat) (f : Nat → Nat → δ) :
    ((List.range m).flatMap fun i => (List.range k).map fun r => f i r).Perm
      ((List.range k).flatMap fun r => (List.range m).map fun i => f i r) := by
  induction m with
  | zero => simp
  | succ m ih =>
      have hr : ((List.range k).flatMap fun r => (List.range (m + 1)).map fun i => f i r)
          = (List.range k).flatMap fun r =>
              ((List.range m).map fun i => f i r) ++ [f m r] := by
        refine flatMap_congr_mem (fun r _ => ?_)
        rw [List.range_succ, List.map_append]
        rfl
      rw [hr, List.range_succ, List.flatMap_append, List.flatMap_singleton]
      refine List.Perm.trans ?_ (flatMap_append_perm (List.range k) _ _).symm
      rw [flatMap_singleton_map]
      exact ih.append_right _

theorem p2pRecvWrites_eq_transpose (w : RaggedWorld) (p : Nat) (hp : p < w.n)
    (hsz : ∀ r < w.n, ∀ q < w.n, ∀ i < w.npr,
      w.recv_sizes q (r * w.npr + i) = w.send_sizes r (q * w.npr + i)) :
    p2pRecvWrites w p
      = (List.range w.npr).flatMap fun i => (List.range w.n).map fun r =>
          memcpyWrite w p r i := by
  unfold p2pRecvWrites
  refine flatMap_congr_mem (fun i hi => ?_)
  refine List.map_congr_left (fun r hr => ?_)
  have hi' := List.mem_range.mp hi
  have hr' := List.mem_range.mp hr
  unfold memcpyWrite
  rw [show resolvedOutputOffsets w p (r * w.npr + i)
        = w.output_offsets r (p * w.npr + i) from
      a2aIndexBuffer_char w.output_offsets w.npr w.n (w.scratch p) p r i hr' hi',
    hsz r hr' p hp i hi']

/-- C1: for valid ragged metadata — matching sizes (every receive size equals
the matching peer's send size) and pairwise-disjoint destination ranges in
each rank's output buffer (the non-overlap invariant the producer
guarantees) — the point-to-point transport and the memory-copy transport
leave every rank's output buffer identical. -/
theorem C1_transport_equivalence (w : RaggedWorld)
    (hsz : ∀ r < w.n, ∀ q < w.n, ∀ i < w.npr,
      w.recv_sizes q (r * w.npr + i) = w.send_sizes r (q * w.npr + i))
    (hdisj : ∀ p < w.n, ∀ r < w.n, ∀ i < w.npr, ∀ r' < w.n, ∀ i' < w.npr,
      (r, i) ≠ (r', i') →
      w.output_offsets r (p * w.npr + i) * w.rres
          + w.send_sizes r (p * w.npr + i) * w.rres
          ≤ w.output_offsets r' (p * w.npr + i') * w.rres
        ∨ w.output_offsets r' (p * w.npr + i') * w.rres
          + w.send_sizes r' (p * w.npr + i') * w.rres
          ≤ w.output_offsets r (p * w.npr + i) * w.rres) :
    ∀ p < w.n, RunRaggedAllToAllOutput w p = RunMemCpyRaggedAllToAllOutput w p := by
  intro p hp
  unfold RunRaggedAllToAllOutput RunMemCpyRaggedAllToAllOutput
  rw [p2pRecvWrites_eq_transpose w p hp hsz]
  refine applyWrites_perm ?_ ?_ (w.outputBuf p)
  · exact flatMap_transpose_perm w.npr w.n (fun i r => memcpyWrite w p r i)
  · intro w1 hw1 w2 hw2
    rcases List.mem_flatMap.mp hw1 with ⟨i, hi, hw1m⟩
    rcases List.mem_map.mp hw1m with ⟨r, hr, rfl⟩
    rcases List.mem_flatMap.mp hw2 with ⟨i', hi', hw2m⟩
    rcases List.mem_map.mp hw2m with ⟨r', hr', rfl⟩
    have hi1 := List.mem_range.mp hi
    have hr1 := List.mem_range.mp hr
    have hi2 := List.mem_range.mp hi'
    have hr2 := List.mem_range.mp hr'
    by_cases heq : (r, i) = (r', i')
    · injection heq with h1 h2
      subst h1
      subst h2
      exact Or.inl rfl
    · exact Or.inr (hdisj p hp r hr1 i hi1 r' hr2 i' hi2 heq)

/-- Witness for C1 at a concrete input: the two-rank witness world satisfies
the size-matching and disjointness hypotheses, and both transports produce
the same output buffer on both ranks. -/
theorem C1_witness :
    ((∀ r < witnessWorld.n, ∀ q < witnessWorld.n, ∀ i < witnessWorld.npr,
        witnessWorld.recv_sizes q (r * witnessWorld.npr + i)
          = witnessWorld.send_sizes r (q * witnessWorld.npr + i))
      ∧ (∀ p < witnessWorld.n, ∀ r < witnessWorld.n, ∀ i < witnessWorld.npr,
          ∀ r' < witnessWorld.n, ∀ i' < witnessWorld.npr, (r, i) ≠ (r', i') →
          witnessWorld.output_offsets r (p * witnessWorld.npr + i) * witnessWorld.rres
              + witnessWorld.send_sizes r (p * witnessWorld.npr + i) * witnessWorld.rres
              ≤ witnessWorld.output_offsets r' (p * witnessWorld.npr + i') * witnessWorld.rres
            ∨ witnessWorld.output_offsets r' (p * witnessWorld.npr + i') * witnessWorld.rres
              + witnessWorld.send_sizes r' (p * witnessWorld.npr + i') * witnessWorld.rres
              ≤ witnessWorld.output_offsets r (p * witnessWorld.npr + i) * witnessWorld.rres))
    ∧ (∀ p < witnessWorld.n,
        RunRaggedAllToAllOutput witnessWorld p
          = RunMemCpyRaggedAllToAllOutput witnessWorld p) :=
  ⟨⟨by decide, by
      intro p hp r hr i hi r' hr' i' hi' hne
      simp only [witnessWorld] at hp hr hi hr' hi' hne ⊢
      interval_cases p <;> interval_cases r <;> interval_cases i <;>
        interval_cases r' <;> interval_cases i' <;> revert hne <;> decide⟩,
    C1_transport_equivalence witnessWorld (by decide)
      (by
        intro p hp r hr i hi r' hr' i' hi' hne
        simp only [witnessWorld] at hp hr hi hr' hi' hne ⊢
        interval_cases p <;> interval_cases r <;> interval_cases i <;>
          interval_cases r' <;> interval_cases i' <;> revert hne <;> decide)⟩

/-- C10: the memory-copy transport's output is determined by
`input_offsets`, `send_sizes` and `output_offsets` alone; two worlds that
agree on everything except the `recv_sizes` array produce identical bytes in
every participant's output buffer. -/
theorem C10_memcpy_ignores_recv_sizes (w w2 : RaggedWorld)
    (hn : w2.n = w.n) (hnpr : w2.npr = w.npr) (hrres : w2.rres = w.rres)
    (hin : w2.inputBuf = w.inputBuf) (hout : w2.outputBuf = w.outputBuf)
    (hio : w2.input_offsets = w.input_offsets)
    (hss : w2.send_sizes = w.send_sizes)
    (hoo : w2.output_offsets = w.output_offsets)
    (hsc : w2.scratch = w.scratch) :
    ∀ p, RunMemCpyRaggedAllToAllOutput w2 p = RunMemCpyRaggedAllToAllOutput w p := by
  intro p
  cases w
  cases w2
  dsimp only at hn hnpr hrres hin hout hio hss hoo hsc
  subst_vars
  rfl

/-- Witness for C10 at a concrete input: changing the witness world's
`recv_sizes` array from all-ones to all-fives leaves the memory-copy
transport's output buffers unchanged on every rank. -/
theorem C10_witness :
    (witnessWorld2.n = witnessWorld.n ∧ witnessWorld2.npr = witnessWorld.npr
      ∧ witnessWorld2.rres = witnessWorld.rres
      ∧ witnessWorld2.inputBuf = witnessWorld.inputBuf
      ∧ witnessWorld2.outputBuf = witnessWorld.outputBuf
      ∧ witnessWorld2.input_offsets = witnessWorld.input_offsets
      ∧ witnessWorld2.send_sizes = witnessWorld.send_sizes
      ∧ witnessWorld2.output_offsets = witnessWorld.output_offsets
      ∧ witnessWorld2.scratch = witnessWorld.scratch
      ∧ witnessWorld2.recv_sizes 0 0 ≠ witnessWorld.recv_sizes 0 0)
    ∧ ∀ p, RunMemCpyRaggedAllToAllOutput witnessWorld2 p
        = RunMemCpyRaggedAllToAllOutput witnessWorld p :=
  ⟨⟨rfl, rfl, rfl, rfl, rfl, rfl, rfl, rfl, rfl, by decide⟩,
    C10_memcpy_ignores_recv_sizes witnessWorld witnessWorld2 rfl rfl rfl rfl rfl rfl
      rfl rfl rfl⟩

/-- Witness for C9 at a concrete input: with an arbitrary concrete allocator,
a fresh state, executor `7` and memory-copy enabled, the second `Initialize`
call returns the first call's state unchanged and performs no allocation. -/
theorem C9_witness :
    Initialize
        ⟨fun e i => 100 * e + i, fun e => 200 + e,
          fun e b => 300 + 2 * e + if b then 1 else 0⟩ true
        (Initialize
          ⟨fun e i => 100 * e + i, fun e => 200 + e,
            fun e b => 300 + 2 * e + if b then 1 else 0⟩ true
          ⟨0, [], [], [], []⟩ ⟨7, 4⟩).1 ⟨7, 4⟩
      = ((Initialize
          ⟨fun e i => 100 * e + i, fun e => 200 + e,
            fun e b => 300 + 2 * e + if b then 1 else 0⟩ true
          ⟨0, [], [], [], []⟩ ⟨7, 4⟩).1, []) :=
  (C9_initialize_idempotent
    ⟨fun e i => 100 * e + i, fun e => 200 + e,
      fun e b => 300 + 2 * e + if b then 1 else 0⟩ true
    ⟨0, [], [], [], []⟩ ⟨7, 4⟩).1

end RaggedAllToAll
